import Mathlib

/-!
Verification development for the rustyfin repository.

The development shallowly embeds the three components of the core:

* `secant` (src/optimization/root_find.rs) — generic scalar secant
  root-finding, embedded generically over a `LinearOrderedField` so that
  the same definition serves the exact-rational instance (executable,
  used for concrete evaluations) and the real instance (used by the
  volatility solver).
* `black_scholes` (src/options/black_scholes.rs) — closed-form European
  option pricing over `ℝ`, with the standard normal CDF `Phi` of the
  `statrs` dependency modelled as the genuine Gaussian integral.
* `implied_volatility` (src/options/volatility.rs) — composition of the
  two; the `.expect(...)` panic of the Rust source is modelled by an
  `Option` return value (`none` = the call aborts).

The Rust `for i in 0..max_iter` loop is rendered as structural recursion
on the remaining fuel (`max_iter - i`), with the 0-based iteration
counter `i` carried along, so that "iteration i" of the loop corresponds
exactly to a call of `secantAux` with counter `i`.
-/

open MeasureTheory Set

/-- Which convergence criterion triggered success
(src/optimization/root_find.rs, `ConvergenceType`). -/
inductive ConvergenceType where
  /-- `|x_n - x_{n-1}| <= xtol` -/
  | XTolerance
  /-- `|f(x_n)| <= ftol` -/
  | FTolerance
deriving DecidableEq, Repr

/-- Errors of the secant method (src/optimization/root_find.rs, `SecantError`). -/
inductive SecantError where
  /-- The method failed to converge within the maximum number of iterations. -/
  | MaxIterationsExceeded
  /-- The denominator `f(x1) - f(x0)` became too small. -/
  | DivisionByZero
deriving DecidableEq, Repr

/-- Result of a successful secant method execution
(src/optimization/root_find.rs, `SecantOk`), generic in the scalar type. -/
structure SecantOk (α : Type) where
  /-- Estimated root. -/
  root : α
  /-- Number of iterations performed (0-based). -/
  iterations : ℕ
  /-- Which convergence criterion triggered termination. -/
  convergence_type : ConvergenceType
deriving DecidableEq, Repr

/-- Loop body of `secant` (src/optimization/root_find.rs lines 51-66).
`fuel` is the number of loop iterations still allowed (`max_iter - i`)
and `i` is the 0-based iteration counter of the Rust `for` loop. -/
def secantAux {α : Type} [LinearOrderedField α] (f : α → α) (xtol ftol : α) :
    ℕ → ℕ → α → α → Except SecantError (SecantOk α)
  | 0, _, _, _ => .error .MaxIterationsExceeded
  | fuel + 1, i, x0, x1 =>
    let f0 := f x0
    let f1 := f x1
    if |f1| < ftol then
      .ok { root := x1, iterations := i, convergence_type := .FTolerance }
    else if |f1 - f0| < ftol then
      .error .DivisionByZero
    else
      let x2 := x1 - f1 * (x1 - x0) / (f1 - f0)
      if |x2 - x1| < xtol then
        .ok { root := x2, iterations := i, convergence_type := .XTolerance }
      else
        secantAux f xtol ftol fuel (i + 1) x1 x2

/-- Secant root-finding method (src/optimization/root_find.rs, `secant`). -/
def secant {α : Type} [LinearOrderedField α] (f : α → α) (x0 x1 xtol ftol : α)
    (max_iter : ℕ) : Except SecantError (SecantOk α) :=
  secantAux f xtol ftol max_iter 0 x0 x1

deriving instance DecidableEq for Except

/-- Instrumented variant of `secantAux` that additionally counts how many
times the function `f` is evaluated: the loop body of the Rust source
evaluates `f` exactly twice per iteration (`let f0 = f(x0); let f1 = f(x1);`). -/
def secantAuxCount {α : Type} [LinearOrderedField α] (f : α → α) (xtol ftol : α) :
    ℕ → ℕ → α → α → Except SecantError (SecantOk α) × ℕ
  | 0, _, _, _ => (.error .MaxIterationsExceeded, 0)
  | fuel + 1, i, x0, x1 =>
    let f0 := f x0
    let f1 := f x1
    if |f1| < ftol then
      (.ok { root := x1, iterations := i, convergence_type := .FTolerance }, 2)
    else if |f1 - f0| < ftol then
      (.error .DivisionByZero, 2)
    else
      let x2 := x1 - f1 * (x1 - x0) / (f1 - f0)
      if |x2 - x1| < xtol then
        (.ok { root := x2, iterations := i, convergence_type := .XTolerance }, 2)
      else
        let rest := secantAuxCount f xtol ftol fuel (i + 1) x1 x2
        (rest.1, 2 + rest.2)

/-- `secant` with an evaluation count for `f` attached. -/
def secantCount {α : Type} [LinearOrderedField α] (f : α → α) (x0 x1 xtol ftol : α)
    (max_iter : ℕ) : Except SecantError (SecantOk α) × ℕ :=
  secantAuxCount f xtol ftol max_iter 0 x0 x1

/-- The pure state trace of the Rust loop: starting from the pair
`(x0, x1)` it performs `n` loop iterations, returning `none` as soon as
one of the three exits of the loop body (f-tolerance success, stagnation
error, x-tolerance success) fires, and `some` of the final iterate pair
when all `n` iterations complete without any exit firing. -/
def secantIter {α : Type} [LinearOrderedField α] (f : α → α) (xtol ftol : α) :
    ℕ → α × α → Option (α × α)
  | 0, s => some s
  | n + 1, (x0, x1) =>
    if |f x1| < ftol then none
    else if |f x1 - f x0| < ftol then none
    else
      let x2 := x1 - f x1 * (x1 - x0) / (f x1 - f x0)
      if |x2 - x1| < xtol then none
      else secantIter f xtol ftol n (x1, x2)

section SecantLemmas

variable {α : Type} [LinearOrderedField α] (f : α → α) (xtol ftol : α)

/-- Unfolding lemma: the f-tolerance exit of the loop body. -/
theorem secantAux_ftol (fuel i : ℕ) (x0 x1 : α) (h : |f x1| < ftol) :
    secantAux f xtol ftol (fuel + 1) i x0 x1 =
      .ok { root := x1, iterations := i, convergence_type := .FTolerance } := by
  simp only [secantAux]
  rw [if_pos h]

/-- Unfolding lemma: the stagnation exit of the loop body. -/
theorem secantAux_stagnation (fuel i : ℕ) (x0 x1 : α)
    (h1 : ¬ |f x1| < ftol) (h2 : |f x1 - f x0| < ftol) :
    secantAux f xtol ftol (fuel + 1) i x0 x1 = .error .DivisionByZero := by
  simp only [secantAux]
  rw [if_neg h1, if_pos h2]

/-- Unfolding lemma: the x-tolerance exit of the loop body. -/
theorem secantAux_xtol (fuel i : ℕ) (x0 x1 : α)
    (h1 : ¬ |f x1| < ftol) (h2 : ¬ |f x1 - f x0| < ftol)
    (h3 : |x1 - f x1 * (x1 - x0) / (f x1 - f x0) - x1| < xtol) :
    secantAux f xtol ftol (fuel + 1) i x0 x1 =
      .ok { root := x1 - f x1 * (x1 - x0) / (f x1 - f x0), iterations := i,
            convergence_type := .XTolerance } := by
  simp only [secantAux]
  rw [if_neg h1, if_neg h2, if_pos h3]

/-- Unfolding lemma: the continuation case of the loop body. -/
theorem secantAux_continue (fuel i : ℕ) (x0 x1 : α)
    (h1 : ¬ |f x1| < ftol) (h2 : ¬ |f x1 - f x0| < ftol)
    (h3 : ¬ |x1 - f x1 * (x1 - x0) / (f x1 - f x0) - x1| < xtol) :
    secantAux f xtol ftol (fuel + 1) i x0 x1 =
      secantAux f xtol ftol fuel (i + 1) x1 (x1 - f x1 * (x1 - x0) / (f x1 - f x0)) := by
  simp only [secantAux]
  rw [if_neg h1, if_neg h2, if_neg h3]

/-- Whenever `secantAux` succeeds with the f-tolerance reason, the returned
root satisfies the f-tolerance test: its residual is strictly below `ftol`. -/
theorem secantAux_ftol_residual (fuel : ℕ) :
    ∀ (i : ℕ) (x0 x1 : α) (ρ : α) (j : ℕ),
      secantAux f xtol ftol fuel i x0 x1 =
        .ok { root := ρ, iterations := j, convergence_type := .FTolerance } →
      |f ρ| < ftol := by
  induction fuel with
  | zero => intro i x0 x1 ρ j h; simp [secantAux] at h
  | succ fuel ih =>
    intro i x0 x1 ρ j h
    by_cases h1 : |f x1| < ftol
    · rw [secantAux_ftol f xtol ftol fuel i x0 x1 h1] at h
      obtain ⟨rfl, -, -⟩ := SecantOk.mk.injEq .. ▸ Except.ok.injEq .. ▸ h
      exact h1
    · by_cases h2 : |f x1 - f x0| < ftol
      · rw [secantAux_stagnation f xtol ftol fuel i x0 x1 h1 h2] at h
        exact absurd h (by simp)
      · by_cases h3 : |x1 - f x1 * (x1 - x0) / (f x1 - f x0) - x1| < xtol
        · rw [secantAux_xtol f xtol ftol fuel i x0 x1 h1 h2 h3] at h
          simp at h
        · rw [secantAux_continue f xtol ftol fuel i x0 x1 h1 h2 h3] at h
          exact ih _ _ _ _ _ h

/-- Whenever `secantAux` succeeds with the x-tolerance reason, the returned
root is the freshly computed secant update of some pair of consecutive
iterates `(a, b)` at which neither the f-tolerance test nor the stagnation
test fired, and only `|root - b| < xtol` is guaranteed — `f` is never
evaluated at the returned root. -/
theorem secantAux_xtol_shape (fuel : ℕ) :
    ∀ (i : ℕ) (x0 x1 : α) (ρ : α) (j : ℕ),
      secantAux f xtol ftol fuel i x0 x1 =
        .ok { root := ρ, iterations := j, convergence_type := .XTolerance } →
      ∃ a b, ¬ |f b| < ftol ∧ ¬ |f b - f a| < ftol ∧
        ρ = b - f b * (b - a) / (f b - f a) ∧ |ρ - b| < xtol := by
  induction fuel with
  | zero => intro i x0 x1 ρ j h; simp [secantAux] at h
  | succ fuel ih =>
    intro i x0 x1 ρ j h
    by_cases h1 : |f x1| < ftol
    · rw [secantAux_ftol f xtol ftol fuel i x0 x1 h1] at h
      simp at h
    · by_cases h2 : |f x1 - f x0| < ftol
      · rw [secantAux_stagnation f xtol ftol fuel i x0 x1 h1 h2] at h
        exact absurd h (by simp)
      · by_cases h3 : |x1 - f x1 * (x1 - x0) / (f x1 - f x0) - x1| < xtol
        · rw [secantAux_xtol f xtol ftol fuel i x0 x1 h1 h2 h3] at h
          obtain ⟨rfl, -, -⟩ := SecantOk.mk.injEq .. ▸ Except.ok.injEq .. ▸ h
          exact ⟨x0, x1, h1, h2, rfl, h3⟩
        · rw [secantAux_continue f xtol ftol fuel i x0 x1 h1 h2 h3] at h
          exact ih _ _ _ _ _ h

/-- Unfolding lemma for one step of the state trace. -/
theorem secantIter_succ (n : ℕ) (x0 x1 : α) :
    secantIter f xtol ftol (n + 1) (x0, x1) =
      if |f x1| < ftol then none
      else if |f x1 - f x0| < ftol then none
      else if |x1 - f x1 * (x1 - x0) / (f x1 - f x0) - x1| < xtol then none
      else secantIter f xtol ftol n (x1, x1 - f x1 * (x1 - x0) / (f x1 - f x0)) :=
  rfl

/-- `secantAux` exhausts its iteration budget exactly when the state trace
completes all its iterations without an exit firing. -/
theorem secantAux_maxIter_iff (fuel : ℕ) :
    ∀ (i : ℕ) (x0 x1 : α),
      secantAux f xtol ftol fuel i x0 x1 = .error .MaxIterationsExceeded ↔
      (secantIter f xtol ftol fuel (x0, x1)).isSome := by
  induction fuel with
  | zero => intro i x0 x1; simp [secantAux, secantIter]
  | succ fuel ih =>
    intro i x0 x1
    rw [secantIter_succ]
    by_cases h1 : |f x1| < ftol
    · rw [secantAux_ftol f xtol ftol fuel i x0 x1 h1, if_pos h1]
      simp
    · rw [if_neg h1]
      by_cases h2 : |f x1 - f x0| < ftol
      · rw [secantAux_stagnation f xtol ftol fuel i x0 x1 h1 h2, if_pos h2]
        simp
      · rw [if_neg h2]
        by_cases h3 : |x1 - f x1 * (x1 - x0) / (f x1 - f x0) - x1| < xtol
        · rw [secantAux_xtol f xtol ftol fuel i x0 x1 h1 h2 h3, if_pos h3]
          simp
        · rw [secantAux_continue f xtol ftol fuel i x0 x1 h1 h2 h3, if_neg h3]
          exact ih _ _ _

/-- The instrumented run returns the same result as the plain run. -/
theorem secantAuxCount_fst (fuel : ℕ) :
    ∀ (i : ℕ) (x0 x1 : α),
      (secantAuxCount f xtol ftol fuel i x0 x1).1 = secantAux f xtol ftol fuel i x0 x1 := by
  induction fuel with
  | zero => intro i x0 x1; simp [secantAux, secantAuxCount]
  | succ fuel ih =>
    intro i x0 x1
    simp only [secantAux, secantAuxCount]
    by_cases h1 : |f x1| < ftol
    · rw [if_pos h1, if_pos h1]
    · rw [if_neg h1, if_neg h1]
      by_cases h2 : |f x1 - f x0| < ftol
      · rw [if_pos h2, if_pos h2]
      · rw [if_neg h2, if_neg h2]
        by_cases h3 : |x1 - f x1 * (x1 - x0) / (f x1 - f x0) - x1| < xtol
        · rw [if_pos h3, if_pos h3]
        · rw [if_neg h3, if_neg h3]
          exact ih _ _ _

/-- The loop body evaluates `f` exactly twice per iteration, so a run with
iteration budget `fuel` evaluates `f` at most `2 * fuel` times. -/
theorem secantAuxCount_le (fuel : ℕ) :
    ∀ (i : ℕ) (x0 x1 : α),
      (secantAuxCount f xtol ftol fuel i x0 x1).2 ≤ 2 * fuel := by
  induction fuel with
  | zero => intro i x0 x1; simp [secantAuxCount]
  | succ fuel ih =>
    intro i x0 x1
    simp only [secantAuxCount]
    by_cases h1 : |f x1| < ftol
    · rw [if_pos h1]; omega
    · rw [if_neg h1]
      by_cases h2 : |f x1 - f x0| < ftol
      · rw [if_pos h2]; omega
      · rw [if_neg h2]
        by_cases h3 : |x1 - f x1 * (x1 - x0) / (f x1 - f x0) - x1| < xtol
        · rw [if_pos h3]; omega
        · rw [if_neg h3]
          have := ih (i + 1) x1 (x1 - f x1 * (x1 - x0) / (f x1 - f x0))
          simp only
          omega

end SecantLemmas

/-! ### The standard normal distribution

The Rust pricer calls `Normal::new(0.0, 1.0).unwrap().cdf` from the
`statrs` dependency; this external collaborator is modelled by the genuine
mathematical standard normal CDF, defined as the integral of the standard
normal density. -/

/-- The standard normal density `exp (-x²/2) / √(2π)`. -/
noncomputable def stdNormalDensity (x : ℝ) : ℝ :=
  Real.exp (-(x ^ 2) / 2) / Real.sqrt (2 * Real.pi)

/-- The standard normal CDF `Φ`, modelling `Normal::new(0.0, 1.0).cdf`
from the `statrs` dependency used in src/options/black_scholes.rs. -/
noncomputable def Phi (x : ℝ) : ℝ :=
  ∫ v in Iic x, stdNormalDensity v

theorem stdNormalDensity_pos (x : ℝ) : 0 < stdNormalDensity x :=
  div_pos (Real.exp_pos _)
    (Real.sqrt_pos.mpr (by positivity))

theorem stdNormalDensity_eq (x : ℝ) :
    stdNormalDensity x = Real.exp (-(1/2) * x ^ 2) * (Real.sqrt (2 * Real.pi))⁻¹ := by
  rw [stdNormalDensity, div_eq_mul_inv]
  ring_nf

theorem integrable_stdNormalDensity : Integrable stdNormalDensity := by
  have h := integrable_exp_neg_mul_sq (b := (1/2 : ℝ)) (by norm_num)
  have h2 := h.mul_const (Real.sqrt (2 * Real.pi))⁻¹
  exact h2.congr (by
    filter_upwards with x
    rw [stdNormalDensity_eq])

theorem integral_stdNormalDensity : ∫ v, stdNormalDensity v = 1 := by
  have h : ∫ v, stdNormalDensity v =
      (∫ v : ℝ, Real.exp (-(1/2) * v ^ 2)) * (Real.sqrt (2 * Real.pi))⁻¹ := by
    rw [← integral_mul_right]
    congr 1
    funext v
    rw [stdNormalDensity_eq]
  rw [h, integral_gaussian]
  have h2 : Real.pi / (1/2) = 2 * Real.pi := by ring
  rw [h2]
  exact mul_inv_cancel₀ (Real.sqrt_ne_zero'.mpr (by positivity))

theorem Phi_nonneg (x : ℝ) : 0 ≤ Phi x :=
  setIntegral_nonneg measurableSet_Iic fun v _ => (stdNormalDensity_pos v).le

theorem Phi_le_one (x : ℝ) : Phi x ≤ 1 := by
  rw [← integral_stdNormalDensity]
  exact setIntegral_le_integral integrable_stdNormalDensity
    (Filter.Eventually.of_forall fun v => (stdNormalDensity_pos v).le)

theorem Phi_mono {a b : ℝ} (h : a ≤ b) : Phi a ≤ Phi b :=
  setIntegral_mono_set integrable_stdNormalDensity.integrableOn
    (Filter.Eventually.of_forall fun v => (stdNormalDensity_pos v).le)
    (HasSubset.Subset.eventuallyLE (Iic_subset_Iic.mpr h))

/-- Translation of an integral over a left-infinite ray. -/
theorem setIntegral_Iic_comp_add (g : ℝ → ℝ) (a c : ℝ) :
    ∫ v in Iic a, g (v + c) = ∫ v in Iic (a + c), g v := by
  rw [← integral_indicator measurableSet_Iic, ← integral_indicator measurableSet_Iic]
  rw [← integral_add_right_eq_self (fun v => (Iic (a + c)).indicator g v) c]
  congr 1
  funext v
  by_cases hv : v ≤ a
  · rw [indicator_of_mem (mem_Iic.mpr hv),
      indicator_of_mem (mem_Iic.mpr (by linarith))]
  · rw [indicator_of_not_mem (fun hm => hv (mem_Iic.mp hm)),
      indicator_of_not_mem (fun hm => hv (by have := mem_Iic.mp hm; linarith))]

/-- Reflection of an integral over a left-infinite ray. -/
theorem setIntegral_Iic_neg (g : ℝ → ℝ) (x : ℝ) :
    ∫ v in Iic (-x), g v = ∫ v in Ici x, g (-v) := by
  rw [← integral_indicator measurableSet_Iic, ← integral_indicator measurableSet_Ici]
  rw [← integral_neg_eq_self (fun v => (Iic (-x)).indicator g v) volume]
  congr 1
  funext v
  by_cases hv : x ≤ v
  · rw [indicator_of_mem (mem_Iic.mpr (by linarith)),
      indicator_of_mem (mem_Ici.mpr hv)]
  · rw [indicator_of_not_mem (fun hm => hv (by have := mem_Iic.mp hm; linarith)),
      indicator_of_not_mem (fun hm => hv (mem_Ici.mp hm))]

theorem Phi_neg (x : ℝ) : Phi (-x) = 1 - Phi x := by
  have hrefl : Phi (-x) = ∫ v in Ici x, stdNormalDensity v := by
    rw [Phi, setIntegral_Iic_neg]
    congr 1
    funext v
    rw [stdNormalDensity, stdNormalDensity, neg_pow]
    norm_num
  have hsplit : Phi x + ∫ v in Ioi x, stdNormalDensity v = 1 := by
    rw [Phi, intervalIntegral.integral_Iic_add_Ioi integrable_stdNormalDensity.integrableOn
      integrable_stdNormalDensity.integrableOn, integral_stdNormalDensity]
  rw [hrefl, integral_Ici_eq_integral_Ioi]
  linarith

theorem Phi_zero : Phi 0 = 1 / 2 := by
  have h := Phi_neg 0
  rw [neg_zero] at h
  linarith

/-- Chernoff-type bound on the lower Gaussian tail. -/
theorem Phi_le_exp_half (x : ℝ) (hx : x ≤ 0) : Phi x ≤ Real.exp (-(x ^ 2) / 2) / 2 := by
  have key : ∀ v ∈ Iic x, stdNormalDensity v ≤
      Real.exp (-(x ^ 2) / 2) * stdNormalDensity (v - x) := by
    intro v hv
    have hv' : v ≤ x := mem_Iic.mp hv
    have hsqrt : 0 < Real.sqrt (2 * Real.pi) :=
      Real.sqrt_pos.mpr (by linarith [Real.pi_pos])
    rw [stdNormalDensity, stdNormalDensity, ← mul_div_assoc]
    apply (div_le_div_right hsqrt).mpr
    rw [← Real.exp_add]
    apply Real.exp_le_exp.mpr
    nlinarith [mul_nonneg (neg_nonneg.mpr hx) (sub_nonneg.mpr hv')]
  have hmono : Phi x ≤ ∫ v in Iic x, Real.exp (-(x ^ 2) / 2) * stdNormalDensity (v - x) := by
    refine setIntegral_mono_on integrable_stdNormalDensity.integrableOn
      ?_ measurableSet_Iic key
    exact ((integrable_stdNormalDensity.comp_sub_right x).const_mul _).integrableOn
  have htrans : ∫ v in Iic x, stdNormalDensity (v - x) = Phi 0 := by
    have h1 : ∀ v : ℝ, stdNormalDensity (v - x) = stdNormalDensity (v + -x) := by
      intro v; rw [sub_eq_add_neg]
    rw [show (fun v => stdNormalDensity (v - x)) = fun v => stdNormalDensity (v + -x) from
      funext h1] at *
    rw [setIntegral_Iic_comp_add stdNormalDensity x (-x)]
    rw [add_neg_cancel]
    rfl
  calc Phi x ≤ ∫ v in Iic x, Real.exp (-(x ^ 2) / 2) * stdNormalDensity (v - x) := hmono
    _ = Real.exp (-(x ^ 2) / 2) * ∫ v in Iic x, stdNormalDensity (v - x) :=
        integral_mul_left _ _
    _ = Real.exp (-(x ^ 2) / 2) * (1 / 2) := by rw [htrans, Phi_zero]
    _ = Real.exp (-(x ^ 2) / 2) / 2 := by ring

/-- Core inequality behind the non-negativity of both Black-Scholes prices:
for positive `A`, `B` and positive total volatility `c`,
`A·Φ((log (A/B) + c²/2)/c) - B·Φ((log (A/B) - c²/2)/c) ≥ 0`.
With `A = spot`, `B = strike·e^(-rate·time)` and `c = sigma·√time` this is
the call price; with `A` and `B` swapped (and the symmetry `Φ(-x) = 1 - Φ(x)`)
it is the put price. -/
theorem gaussian_call_core {A B c : ℝ} (hA : 0 < A) (hB : 0 < B) (hc : 0 < c) :
    0 ≤ A * Phi ((Real.log (A / B) + c ^ 2 / 2) / c) -
        B * Phi ((Real.log (A / B) - c ^ 2 / 2) / c) := by
  set L := Real.log (A / B) with hL
  set D2 := (L - c ^ 2 / 2) / c with hD2
  have hD1 : (L + c ^ 2 / 2) / c = D2 + c := by
    rw [hD2]
    field_simp
    ring
  rw [hD1]
  have htrans : Phi (D2 + c) = ∫ v in Iic D2, stdNormalDensity (v + c) := by
    rw [setIntegral_Iic_comp_add stdNormalDensity D2 c]
    rfl
  have hint1 : IntegrableOn (fun v => A * stdNormalDensity (v + c)) (Iic D2) :=
    ((integrable_stdNormalDensity.comp_add_right c).const_mul A).integrableOn
  have hint2 : IntegrableOn (fun v => B * stdNormalDensity v) (Iic D2) :=
    (integrable_stdNormalDensity.const_mul B).integrableOn
  have hsub : A * Phi (D2 + c) - B * Phi D2 =
      ∫ v in Iic D2, (A * stdNormalDensity (v + c) - B * stdNormalDensity v) := by
    rw [integral_sub hint1 hint2, integral_mul_left, integral_mul_left, htrans, Phi]
  rw [hsub]
  apply setIntegral_nonneg measurableSet_Iic
  intro v hv
  have hv' : v ≤ D2 := mem_Iic.mp hv
  have hvc : v * c + c ^ 2 / 2 ≤ L := by
    have := (le_div_iff hc).mp hv'
    linarith
  have h1 : Real.exp (v * c + c ^ 2 / 2) ≤ A / B := by
    rw [← Real.exp_log (div_pos hA hB)]
    exact Real.exp_le_exp.mpr hvc
  have h2 : B * Real.exp (v * c + c ^ 2 / 2) ≤ A := by
    rwa [← le_div_iff' hB]
  have hkey : B * stdNormalDensity v ≤ A * stdNormalDensity (v + c) := by
    have hsqrt : 0 < Real.sqrt (2 * Real.pi) :=
      Real.sqrt_pos.mpr (by linarith [Real.pi_pos])
    rw [stdNormalDensity, stdNormalDensity, ← mul_div_assoc, ← mul_div_assoc]
    apply (div_le_div_right hsqrt).mpr
    calc B * Real.exp (-(v ^ 2) / 2)
        = (B * Real.exp (v * c + c ^ 2 / 2)) * Real.exp (-((v + c) ^ 2) / 2) := by
          rw [mul_assoc, ← Real.exp_add]
          congr 1
          ring
      _ ≤ A * Real.exp (-((v + c) ^ 2) / 2) :=
          mul_le_mul_of_nonneg_right h2 (Real.exp_pos _).le
  linarith

/-! ### The Black-Scholes pricer (src/options/black_scholes.rs) -/

/-- `d1 = [ln(S/K) + (r + 0.5*sigma^2) * T] / (sigma * sqrt(T))`
(src/options/black_scholes.rs, `d1_f`). -/
noncomputable def d1_f (s k t r sigma : ℝ) : ℝ :=
  let sqrt_t := Real.sqrt t
  let sigma_sqrt_t := sigma * sqrt_t
  (Real.log (s / k) + (r + 0.5 * sigma * sigma) * t) / sigma_sqrt_t

/-- Compute `d2 = d1 - sigma * sqrt(T)` (src/options/black_scholes.rs, `d2_f`). -/
noncomputable def d2_f (s k t r sigma : ℝ) : ℝ :=
  d1_f s k t r sigma - sigma * Real.sqrt t

/-- Compute European call and put prices
(src/options/black_scholes.rs, `black_scholes`). -/
noncomputable def black_scholes (s k t r sigma : ℝ) : ℝ × ℝ :=
  if t ≤ 0 ∨ sigma ≤ 0 then
    (max (s - k) 0, max (k - s) 0)
  else
    let d1 := d1_f s k t r sigma
    let d2 := d2_f s k t r sigma
    let nd1 := Phi d1
    let nd2 := Phi d2
    let nmd1 := Phi (-d1)
    let nmd2 := Phi (-d2)
    let df := Real.exp (-r * t)
    (s * nd1 - k * df * nd2, k * df * nmd2 - s * nmd1)

theorem black_scholes_edge {s k t r sigma : ℝ} (h : t ≤ 0 ∨ sigma ≤ 0) :
    black_scholes s k t r sigma = (max (s - k) 0, max (k - s) 0) := by
  rw [black_scholes, if_pos h]

theorem black_scholes_formula {s k t r sigma : ℝ} (ht : 0 < t) (hsig : 0 < sigma) :
    black_scholes s k t r sigma =
      (s * Phi (d1_f s k t r sigma) -
         k * Real.exp (-r * t) * Phi (d2_f s k t r sigma),
       k * Real.exp (-r * t) * Phi (-(d2_f s k t r sigma)) -
         s * Phi (-(d1_f s k t r sigma))) := by
  rw [black_scholes, if_neg (by push_neg; exact ⟨ht, hsig⟩)]

/-- Representation of `d1` used by the non-negativity argument:
with `B = k·e^(-r·t)` the forward-discounted strike and `c = sigma·√t`,
`d1 = (log (s/B) + c²/2)/c`. -/
theorem d1_f_repr {s k t r sigma : ℝ} (hs : 0 < s) (hk : 0 < k) (ht : 0 < t)
    (hsig : 0 < sigma) :
    d1_f s k t r sigma =
      (Real.log (s / (k * Real.exp (-r * t))) + (sigma * Real.sqrt t) ^ 2 / 2) /
        (sigma * Real.sqrt t) := by
  have hst : 0 < Real.sqrt t := Real.sqrt_pos.mpr ht
  have hsq : (sigma * Real.sqrt t) ^ 2 = sigma ^ 2 * t := by
    rw [mul_pow, Real.sq_sqrt ht.le]
  have hlog : Real.log (s / (k * Real.exp (-r * t))) = Real.log (s / k) + r * t := by
    rw [div_mul_eq_div_div, Real.log_div (by positivity) (Real.exp_ne_zero _),
      Real.log_exp]
    ring
  rw [d1_f, hlog, hsq]
  ring

/-- The same representation for `d2 = (log (s/B) - c²/2)/c`. -/
theorem d2_f_repr {s k t r sigma : ℝ} (hs : 0 < s) (hk : 0 < k) (ht : 0 < t)
    (hsig : 0 < sigma) :
    d2_f s k t r sigma =
      (Real.log (s / (k * Real.exp (-r * t))) - (sigma * Real.sqrt t) ^ 2 / 2) /
        (sigma * Real.sqrt t) := by
  have hst : 0 < Real.sqrt t := Real.sqrt_pos.mpr ht
  have hc : sigma * Real.sqrt t ≠ 0 := by positivity
  rw [d2_f, d1_f_repr hs hk ht hsig]
  field_simp
  ring

/-- Non-negativity of the call price in the closed-form branch. -/
theorem black_scholes_call_nonneg {s k t r sigma : ℝ} (hs : 0 < s) (hk : 0 < k)
    (ht : 0 < t) (hsig : 0 < sigma) :
    0 ≤ (black_scholes s k t r sigma).1 := by
  have hB : 0 < k * Real.exp (-r * t) := by positivity
  have hc : 0 < sigma * Real.sqrt t := by
    have := Real.sqrt_pos.mpr ht
    positivity
  have hcore := gaussian_call_core (A := s) (B := k * Real.exp (-r * t))
    (c := sigma * Real.sqrt t) hs hB hc
  rw [black_scholes_formula ht hsig]
  simp only
  rw [d1_f_repr hs hk ht hsig, d2_f_repr hs hk ht hsig]
  linarith

/-- Non-negativity of the put price in the closed-form branch, by applying
the core inequality with spot and discounted strike swapped. -/
theorem black_scholes_put_nonneg {s k t r sigma : ℝ} (hs : 0 < s) (hk : 0 < k)
    (ht : 0 < t) (hsig : 0 < sigma) :
    0 ≤ (black_scholes s k t r sigma).2 := by
  have hB : 0 < k * Real.exp (-r * t) := by positivity
  have hc : 0 < sigma * Real.sqrt t := by
    have := Real.sqrt_pos.mpr ht
    positivity
  have hcore := gaussian_call_core (A := k * Real.exp (-r * t)) (B := s)
    (c := sigma * Real.sqrt t) hB hs hc
  have hlogswap : Real.log (k * Real.exp (-r * t) / s) =
      -Real.log (s / (k * Real.exp (-r * t))) := by
    rw [Real.log_div (by positivity) (ne_of_gt hs),
      Real.log_div (ne_of_gt hs) (by positivity)]
    ring
  have hnd2 : (Real.log (k * Real.exp (-r * t) / s) + (sigma * Real.sqrt t) ^ 2 / 2) /
      (sigma * Real.sqrt t) = -(d2_f s k t r sigma) := by
    rw [d2_f_repr hs hk ht hsig, hlogswap]
    ring
  have hnd1 : (Real.log (k * Real.exp (-r * t) / s) - (sigma * Real.sqrt t) ^ 2 / 2) /
      (sigma * Real.sqrt t) = -(d1_f s k t r sigma) := by
    rw [d1_f_repr hs hk ht hsig, hlogswap]
    ring
  rw [hnd2, hnd1] at hcore
  rw [black_scholes_formula ht hsig]
  simp only
  linarith

/-- Put-call parity in the closed-form branch. -/
theorem black_scholes_parity {s k t r sigma : ℝ} (ht : 0 < t) (hsig : 0 < sigma) :
    (black_scholes s k t r sigma).1 - (black_scholes s k t r sigma).2 =
      s - k * Real.exp (-r * t) := by
  rw [black_scholes_formula ht hsig]
  simp only
  rw [Phi_neg (d1_f s k t r sigma), Phi_neg (d2_f s k t r sigma)]
  ring

/-! ### The volatility solver (src/options/volatility.rs) -/

/-- Calculates implied volatility by solving for the market price using
the Black-Scholes formula (src/options/volatility.rs, `implied_volatility`).
The Rust source unwraps the secant result with
`.expect("Implied volatility calculation failed")`, i.e. it panics on
either solver error; the panic is modelled by `none`. -/
noncomputable def implied_volatility (p s k t r : ℝ) (is_call : Bool) : Option ℝ :=
  if is_call then
    match secant (fun sigma => (black_scholes s k t r sigma).1 - p)
        0.1 0.3 1e-6 1e-6 50 with
    | .ok res => some res.root
    | .error _ => none
  else
    match secant (fun sigma => (black_scholes s k t r sigma).2 - p)
        0.1 0.3 1e-6 1e-6 50 with
    | .ok res => some res.root
    | .error _ => none

/-- Unfolding helper: `implied_volatility` is the secant solver with the
fixed defaults applied to the matching residual. -/
theorem implied_volatility_unfold (p s k t r : ℝ) :
    implied_volatility p s k t r true =
      (match secant (fun sigma => (black_scholes s k t r sigma).1 - p)
          0.1 0.3 1e-6 1e-6 50 with
       | .ok res => some res.root
       | .error _ => none) ∧
    implied_volatility p s k t r false =
      (match secant (fun sigma => (black_scholes s k t r sigma).2 - p)
          0.1 0.3 1e-6 1e-6 50 with
       | .ok res => some res.root
       | .error _ => none) := by
  constructor
  · rw [implied_volatility, if_pos rfl]
  · rw [implied_volatility, if_neg (by simp)]

/-! ### Claim theorems -/

/-- C2 (amended): the f-tolerance short-circuit holds with the STRICT
inequality `|f(x1)| < ftol` that the source uses (`f1.abs() < ftol`):
whenever iteration `i` starts at a state whose second iterate `x1`
satisfies `|f x1| < ftol`, the loop returns success immediately with
root `x1`, f-tolerance convergence and iteration count `i`; in
particular, when `|f x1| < ftol` holds at entry and `max_iter ≥ 1`,
`secant` returns `Ok` with root `x1` and `iterations = 0`. -/
theorem secant_ftol_shortcircuit :
    ∀ (α : Type) [LinearOrderedField α] (f : α → α) (xtol ftol : α)
      (fuel i : ℕ) (x0 x1 : α), |f x1| < ftol →
    secantAux f xtol ftol (fuel + 1) i x0 x1 =
      .ok { root := x1, iterations := i, convergence_type := .FTolerance } ∧
    secant f x0 x1 xtol ftol (fuel + 1) =
      .ok { root := x1, iterations := 0, convergence_type := .FTolerance } := by
  intro α _ f xtol ftol fuel i x0 x1 h
  exact ⟨secantAux_ftol f xtol ftol fuel i x0 x1 h,
    secantAux_ftol f xtol ftol fuel 0 x0 x1 h⟩

/-- Witness for C2 at a concrete rational input. -/
theorem secant_ftol_shortcircuit_witness :
    |(fun x : ℚ => x) 0| < 1 ∧
    secantAux (fun x : ℚ => x) 1 1 (4 + 1) 2 5 0 =
      .ok { root := 0, iterations := 2, convergence_type := .FTolerance } ∧
    secant (fun x : ℚ => x) 5 0 1 1 (4 + 1) =
      .ok { root := 0, iterations := 0, convergence_type := .FTolerance } :=
  ⟨by norm_num, secant_ftol_shortcircuit ℚ (fun x => x) 1 1 4 2 5 0 (by norm_num)⟩

/-- C2 counterexample: the claim as stated (with `≤`, "including the
boundary case `|f(x1)| = ftol` exactly") is false on the code, which
tests the strict `<`. With `f = id`, `x0 = 5`, `x1 = 1`, `ftol = 1`
(so `|f x1| = ftol` exactly), `xtol = 1/2`, the run does not
short-circuit at iteration 0 with root `x1 = 1`: it performs a secant
update and converges at iteration 1 with root `0`. -/
theorem secant_ftol_boundary_counterexample :
    |(fun x : ℚ => x) 1| ≤ 1 ∧
    secant (fun x : ℚ => x) 5 1 (1/2) 1 50 =
      .ok { root := 0, iterations := 1, convergence_type := .FTolerance } ∧
    secant (fun x : ℚ => x) 5 1 (1/2) 1 50 ≠
      .ok { root := 1, iterations := 0, convergence_type := .FTolerance } := by
  have hrun : secant (fun x : ℚ => x) 5 1 (1/2) 1 50 =
      .ok { root := 0, iterations := 1, convergence_type := .FTolerance } := by
    show secantAux _ _ _ (49 + 1) 0 5 1 = _
    rw [secantAux_continue _ _ _ _ _ _ _ (by norm_num) (by norm_num) (by norm_num)]
    norm_num
    show secantAux _ _ _ (48 + 1) 1 1 0 = _
    exact secantAux_ftol _ _ _ _ _ _ _ (by norm_num)
  refine ⟨by norm_num, hrun, ?_⟩
  rw [hrun]
  intro hcontra
  have := (Except.ok.injEq _ _).mp hcontra
  rw [SecantOk.mk.injEq] at this
  exact absurd this.1 (by norm_num)

/-- C3 (amended): the stagnation check and its ordering hold with the
STRICT inequalities the source uses: on an iteration where the
f-tolerance test `|f x1| < ftol` does not fire and `|f x1 - f x0| < ftol`
holds, the loop returns `Err(DivisionByZero)`; and the f-tolerance test
precedes the stagnation test, so when `f x0 = f x1` and `|f x1| < ftol`
the result is f-tolerance success, not the stagnation error. -/
theorem secant_stagnation_order :
    ∀ (α : Type) [LinearOrderedField α] (f : α → α) (xtol ftol : α)
      (fuel i : ℕ) (x0 x1 : α),
    (¬ |f x1| < ftol → |f x1 - f x0| < ftol →
      secantAux f xtol ftol (fuel + 1) i x0 x1 = .error .DivisionByZero) ∧
    (f x0 = f x1 → |f x1| < ftol →
      secantAux f xtol ftol (fuel + 1) i x0 x1 =
        .ok { root := x1, iterations := i, convergence_type := .FTolerance }) := by
  intro α _ f xtol ftol fuel i x0 x1
  exact ⟨fun h1 h2 => secantAux_stagnation f xtol ftol fuel i x0 x1 h1 h2,
    fun _ h => secantAux_ftol f xtol ftol fuel i x0 x1 h⟩

/-- Witness for C3: a concrete stagnating run and a concrete run where
both values are equal and small, so f-tolerance wins. -/
theorem secant_stagnation_order_witness :
    secantAux (fun x : ℚ => x) 1 2 (7 + 1) 0 3 4 = .error .DivisionByZero ∧
    secantAux (fun _ : ℚ => 0) 1 1 (7 + 1) 0 3 4 =
      .ok { root := 4, iterations := 0, convergence_type := .FTolerance } :=
  ⟨(secant_stagnation_order ℚ (fun x => x) 1 2 7 0 3 4).1 (by norm_num) (by norm_num),
   (secant_stagnation_order ℚ (fun _ => 0) 1 1 7 0 3 4).2 rfl (by norm_num)⟩

/-- C3 counterexample: the claim as stated (with `≤`) is false on the
code. With `f = id`, `x0 = 3`, `x1 = 4`, `ftol = 1` the f-tolerance test
does not fire and `|f x1 - f x0| = 1 ≤ ftol` holds, yet the code (which
tests `|f1 - f0| < ftol` strictly) does not return the stagnation error:
with `xtol = 5` it succeeds at iteration 0 by x-tolerance. -/
theorem secant_stagnation_boundary_counterexample :
    ¬ |(fun x : ℚ => x) 4| ≤ 1 ∧ |(fun x : ℚ => x) 4 - (fun x : ℚ => x) 3| ≤ 1 ∧
    secant (fun x : ℚ => x) 3 4 5 1 50 =
      .ok { root := 0, iterations := 0, convergence_type := .XTolerance } := by
  refine ⟨by norm_num, by norm_num, ?_⟩
  show secantAux _ _ _ (49 + 1) 0 3 4 = _
  rw [secantAux_xtol (fun x : ℚ => x) 5 1 49 0 3 4 (by norm_num) (by norm_num)
    (by norm_num)]
  norm_num

/-- C4: `secant` always terminates (it is a total function of its fuel),
evaluates `f` at most `2·max_iter` times (the instrumented run
`secantCount` returns the same result and its evaluation count is bounded
by `2·max_iter`), and returns `Err(MaxIterationsExceeded)` exactly when
all `max_iter` loop iterations complete without the f-tolerance success,
the stagnation error, or the x-tolerance success firing (i.e. exactly
when the state trace `secantIter` survives all `max_iter` steps). -/
theorem secant_termination_exhaustion :
    ∀ (α : Type) [LinearOrderedField α] (f : α → α) (x0 x1 xtol ftol : α)
      (max_iter : ℕ),
    (secantCount f x0 x1 xtol ftol max_iter).1 = secant f x0 x1 xtol ftol max_iter ∧
    (secantCount f x0 x1 xtol ftol max_iter).2 ≤ 2 * max_iter ∧
    (secant f x0 x1 xtol ftol max_iter = .error .MaxIterationsExceeded ↔
      (secantIter f xtol ftol max_iter (x0, x1)).isSome) := by
  intro α _ f x0 x1 xtol ftol max_iter
  exact ⟨secantAuxCount_fst f xtol ftol max_iter 0 x0 x1,
    secantAuxCount_le f xtol ftol max_iter 0 x0 x1,
    secantAux_maxIter_iff f xtol ftol max_iter 0 x0 x1⟩

/-- C10: when `secantAux` succeeds by x-tolerance the returned root is the
freshly computed secant update of the final iterate pair, `f` is never
evaluated there, and consequently there are runs that succeed with
`XTolerance` while `|f root| > ftol`: concretely for
`f x = x² - 2`, `x0 = 0`, `x1 = 2`, `xtol = 2`, `ftol = 1/10`, `secant`
returns `Ok` with x-tolerance convergence and root `1`, yet `|f 1| = 1 > ftol`. -/
theorem secant_xtol_no_residual_guarantee :
    (∀ (α : Type) [LinearOrderedField α] (f : α → α) (xtol ftol : α)
       (fuel i : ℕ) (x0 x1 ρ : α) (j : ℕ),
      secantAux f xtol ftol fuel i x0 x1 =
        .ok { root := ρ, iterations := j, convergence_type := .XTolerance } →
      ∃ a b, ¬ |f b| < ftol ∧ ¬ |f b - f a| < ftol ∧
        ρ = b - f b * (b - a) / (f b - f a) ∧ |ρ - b| < xtol) ∧
    secant (fun x : ℚ => x ^ 2 - 2) 0 2 2 (1/10) 50 =
      .ok { root := 1, iterations := 0, convergence_type := .XTolerance } ∧
    |(fun x : ℚ => x ^ 2 - 2) 1| > 1/10 := by
  refine ⟨?_, ?_, by norm_num⟩
  · intro α _ f xtol ftol fuel i x0 x1 ρ j h
    exact secantAux_xtol_shape f xtol ftol fuel i x0 x1 ρ j h
  · show secantAux _ _ _ (49 + 1) 0 0 2 = _
    rw [secantAux_xtol (fun x : ℚ => x ^ 2 - 2) 2 (1/10) 49 0 0 2 (by norm_num)
      (by norm_num) (by norm_num)]
    norm_num

/-- Witness for C10: the universally quantified conjunct applied to the
concrete rational run of the other conjunct. -/
theorem secant_xtol_no_residual_guarantee_witness :
    ∃ a b : ℚ, ¬ |(fun x : ℚ => x ^ 2 - 2) b| < 1/10 ∧
      ¬ |(fun x : ℚ => x ^ 2 - 2) b - (fun x : ℚ => x ^ 2 - 2) a| < 1/10 ∧
      (1 : ℚ) = b - (fun x : ℚ => x ^ 2 - 2) b * (b - a) /
        ((fun x : ℚ => x ^ 2 - 2) b - (fun x : ℚ => x ^ 2 - 2) a) ∧
      |(1 : ℚ) - b| < 2 :=
  secant_xtol_no_residual_guarantee.1 ℚ (fun x => x ^ 2 - 2) 2 (1/10) 50 0 0 2 1 0
    secant_xtol_no_residual_guarantee.2.1

/-- C5: whenever `time ≤ 0` or `sigma ≤ 0`, `black_scholes` returns
exactly the intrinsic values `(max (spot - strike) 0, max (strike - spot) 0)`,
with no dependence on the rate; e.g.
`black_scholes 120 100 0 0.05 0.2 = (20, 0)` exactly. -/
theorem black_scholes_intrinsic_edge :
    ∀ (s k t r r' sigma : ℝ), t ≤ 0 ∨ sigma ≤ 0 →
    black_scholes s k t r sigma = (max (s - k) 0, max (k - s) 0) ∧
    black_scholes s k t r sigma = black_scholes s k t r' sigma ∧
    black_scholes 120 100 0 0.05 0.2 = (20, 0) := by
  intro s k t r r' sigma h
  refine ⟨black_scholes_edge h, ?_, ?_⟩
  · rw [black_scholes_edge h, black_scholes_edge h]
  · rw [black_scholes_edge (Or.inl le_rfl)]
    norm_num

/-- Witness for C5 at `time = 0`. -/
theorem black_scholes_intrinsic_edge_witness :
    ((0 : ℝ) ≤ 0 ∨ (0.2 : ℝ) ≤ 0) ∧
    black_scholes 120 100 0 0.05 0.2 = (max (120 - 100 : ℝ) 0, max (100 - 120 : ℝ) 0) ∧
    black_scholes 120 100 0 0.05 0.2 = black_scholes 120 100 0 0.07 0.2 ∧
    black_scholes 120 100 0 0.05 0.2 = (20, 0) :=
  ⟨Or.inl le_rfl, black_scholes_intrinsic_edge 120 100 0 0.05 0.07 0.2 (Or.inl le_rfl)⟩

/-- C6: put-call parity: for positive spot, strike, time and volatility and
any rate, the pair returned by `black_scholes` satisfies
`call - put = spot - strike·e^(-rate·time)` exactly (the claim's 1e-9
floating-point tolerance corresponds to exact equality in the real
semantics), because both prices are computed from the same `d1`/`d2`. -/
theorem black_scholes_put_call_parity :
    ∀ (s k t r sigma : ℝ), 0 < s → 0 < k → 0 < t → 0 < sigma →
    (black_scholes s k t r sigma).1 - (black_scholes s k t r sigma).2 =
      s - k * Real.exp (-r * t) := by
  intro s k t r sigma _ _ ht hsig
  exact black_scholes_parity ht hsig

/-- Witness for C6 at `spot = strike = time = sigma = 1`, `rate = 0`. -/
theorem black_scholes_put_call_parity_witness :
    0 < (1 : ℝ) ∧
    (black_scholes 1 1 1 0 1).1 - (black_scholes 1 1 1 0 1).2 =
      1 - 1 * Real.exp (-0 * 1) :=
  ⟨one_pos, black_scholes_put_call_parity 1 1 1 0 1 one_pos one_pos one_pos one_pos⟩

/-- C7: for every input with positive spot and strike — in the intrinsic
edge branch as well as in the closed-form branch — both components of the
pair returned by `black_scholes` are non-negative. -/
theorem black_scholes_nonneg :
    ∀ (s k t r sigma : ℝ), 0 < s → 0 < k →
    0 ≤ (black_scholes s k t r sigma).1 ∧ 0 ≤ (black_scholes s k t r sigma).2 := by
  intro s k t r sigma hs hk
  by_cases h : t ≤ 0 ∨ sigma ≤ 0
  · rw [black_scholes_edge h]
    exact ⟨le_max_right _ _, le_max_right _ _⟩
  · push_neg at h
    exact ⟨black_scholes_call_nonneg hs hk h.1 h.2,
      black_scholes_put_nonneg hs hk h.1 h.2⟩

/-- Witness for C7, exercising the closed-form branch. -/
theorem black_scholes_nonneg_witness :
    0 < (1 : ℝ) ∧
    0 ≤ (black_scholes 1 1 1 0 1).1 ∧ 0 ≤ (black_scholes 1 1 1 0 1).2 :=
  ⟨one_pos, black_scholes_nonneg 1 1 1 0 1 one_pos one_pos⟩

/-- C8: for every input, `implied_volatility` is exactly the secant solver
with `x0 = 0.1`, `x1 = 0.3`, `xtol = 1e-6`, `ftol = 1e-6`, `max_iter = 50`
applied to the residual `sigma ↦ call_price(sigma) - observed_price` when
`is_call` is true and `sigma ↦ put_price(sigma) - observed_price` when it
is false (only the matching component of the pricer's pair is used), and
on secant success the converged root is returned unchanged. -/
theorem implied_volatility_composition :
    ∀ (p s k t r : ℝ),
    implied_volatility p s k t r true =
      (match secant (fun sigma => (black_scholes s k t r sigma).1 - p)
          0.1 0.3 1e-6 1e-6 50 with
       | .ok res => some res.root
       | .error _ => none) ∧
    implied_volatility p s k t r false =
      (match secant (fun sigma => (black_scholes s k t r sigma).2 - p)
          0.1 0.3 1e-6 1e-6 50 with
       | .ok res => some res.root
       | .error _ => none) := by
  intro p s k t r
  exact implied_volatility_unfold p s k t r

/-- C9: `secant` itself never aborts — for every input it returns either a
success value or one of exactly the two error values — whereas
`implied_volatility` returns a value exactly when the underlying secant
call succeeds and aborts (modelled by `none`) exactly when the secant call
returns either error, so neither failure kind is surfaced as an explicit
error value. -/
theorem secant_total_implied_volatility_panics :
    (∀ (α : Type) [LinearOrderedField α] (f : α → α) (x0 x1 xtol ftol : α)
       (max_iter : ℕ),
      (∃ ok, secant f x0 x1 xtol ftol max_iter = .ok ok) ∨
      secant f x0 x1 xtol ftol max_iter = .error .MaxIterationsExceeded ∨
      secant f x0 x1 xtol ftol max_iter = .error .DivisionByZero) ∧
    (∀ (p s k t r : ℝ) (v : ℝ),
      (implied_volatility p s k t r true = some v ↔
        ∃ i ct, secant (fun sigma => (black_scholes s k t r sigma).1 - p)
          0.1 0.3 1e-6 1e-6 50 =
            .ok { root := v, iterations := i, convergence_type := ct }) ∧
      (implied_volatility p s k t r false = some v ↔
        ∃ i ct, secant (fun sigma => (black_scholes s k t r sigma).2 - p)
          0.1 0.3 1e-6 1e-6 50 =
            .ok { root := v, iterations := i, convergence_type := ct })) ∧
    (∀ (p s k t r : ℝ),
      (implied_volatility p s k t r true = none ↔
        ∃ e, secant (fun sigma => (black_scholes s k t r sigma).1 - p)
          0.1 0.3 1e-6 1e-6 50 = .error e) ∧
      (implied_volatility p s k t r false = none ↔
        ∃ e, secant (fun sigma => (black_scholes s k t r sigma).2 - p)
          0.1 0.3 1e-6 1e-6 50 = .error e)) := by
  refine ⟨?_, ?_, ?_⟩
  · intro α _ f x0 x1 xtol ftol max_iter
    rcases hres : secant f x0 x1 xtol ftol max_iter with e | ok
    · cases e
      · exact Or.inr (Or.inl rfl)
      · exact Or.inr (Or.inr rfl)
    · exact Or.inl ⟨ok, rfl⟩
  · intro p s k t r v
    constructor
    · rw [(implied_volatility_unfold p s k t r).1]
      rcases hres : secant (fun sigma => (black_scholes s k t r sigma).1 - p)
          0.1 0.3 1e-6 1e-6 50 with e | ok
      · simp
      · simp only [Option.some.injEq]
        constructor
        · rintro rfl
          exact ⟨ok.iterations, ok.convergence_type, rfl⟩
        · rintro ⟨i, ct, hok⟩
          rw [Except.ok.injEq] at hok
          rw [hok]
    · rw [(implied_volatility_unfold p s k t r).2]
      rcases hres : secant (fun sigma => (black_scholes s k t r sigma).2 - p)
          0.1 0.3 1e-6 1e-6 50 with e | ok
      · simp
      · simp only [Option.some.injEq]
        constructor
        · rintro rfl
          exact ⟨ok.iterations, ok.convergence_type, rfl⟩
        · rintro ⟨i, ct, hok⟩
          rw [Except.ok.injEq] at hok
          rw [hok]
  · intro p s k t r
    constructor
    · rw [(implied_volatility_unfold p s k t r).1]
      rcases hres : secant (fun sigma => (black_scholes s k t r sigma).1 - p)
          0.1 0.3 1e-6 1e-6 50 with e | ok
      · simp
      · simp
    · rw [(implied_volatility_unfold p s k t r).2]
      rcases hres : secant (fun sigma => (black_scholes s k t r sigma).2 - p)
          0.1 0.3 1e-6 1e-6 50 with e | ok
      · simp
      · simp

/-- `Real.add_one_le_exp` squared gives a usable lower bound on a large
exponential. -/
theorem exp_neg_4950_lt : Real.exp (-(4950 : ℝ)) < 1 / 2000000 := by
  have h1 : (2476 : ℝ) ≤ Real.exp 2475 := by
    have := Real.add_one_le_exp (2475 : ℝ)
    linarith
  have h2 : (2000000 : ℝ) < Real.exp 4950 := by
    rw [show (4950 : ℝ) = 2475 + 2475 by norm_num, Real.exp_add]
    nlinarith
  rw [Real.exp_neg, one_div]
  exact inv_lt_inv_of_lt (by norm_num) h2

/-- The lower Gaussian tail at any point with `x² ≥ 9900` is far below the
solver's f-tolerance. -/
theorem Phi_tail_small {x : ℝ} (hx : x ≤ 0) (hxx : (9900 : ℝ) ≤ x ^ 2) :
    Phi x < 1 / 4000000 := by
  have h1 := Phi_le_exp_half x hx
  have h2 : Real.exp (-(x ^ 2) / 2) ≤ Real.exp (-(4950 : ℝ)) :=
    Real.exp_le_exp.mpr (by linarith)
  have h3 := exp_neg_4950_lt
  linarith

/-- The call price is bounded above by `s·Φ(d1)` in the closed-form branch. -/
theorem black_scholes_call_le {s k t r sigma : ℝ} (hk : 0 < k) (ht : 0 < t)
    (hsig : 0 < sigma) :
    (black_scholes s k t r sigma).1 ≤ s * Phi (d1_f s k t r sigma) := by
  rw [black_scholes_formula ht hsig]
  simp only
  have h : 0 ≤ k * Real.exp (-r * t) * Phi (d2_f s k t r sigma) :=
    mul_nonneg (by positivity) (Phi_nonneg _)
  linarith

/-- `d1` at the deep out-of-the-money counterexample parameters
`spot = 1`, `strike = e^100`, `time = 1`, `rate = 0`. -/
theorem d1_f_deep_otm (sigma : ℝ) :
    d1_f 1 (Real.exp 100) 1 0 sigma = (-100 + 0.5 * sigma * sigma) / sigma := by
  rw [d1_f]
  simp only [one_div, Real.log_inv, Real.log_exp, Real.sqrt_one, mul_one, zero_add]

/-- Both call prices of the counterexample are tiny. -/
theorem deep_otm_call_small (sigma : ℝ) (hs0 : 0 < sigma) (hs1 : sigma ≤ 1) :
    0 ≤ (black_scholes 1 (Real.exp 100) 1 0 sigma).1 ∧
    (black_scholes 1 (Real.exp 100) 1 0 sigma).1 < 1 / 4000000 := by
  have hek : (0 : ℝ) < Real.exp 100 := Real.exp_pos _
  refine ⟨(black_scholes_call_nonneg one_pos hek one_pos hs0), ?_⟩
  have hle := black_scholes_call_le (s := (1 : ℝ)) (r := (0 : ℝ)) hek one_pos hs0
  rw [d1_f_deep_otm] at hle
  have hsq1 : sigma ^ 2 ≤ 1 := by nlinarith
  have hxneg : (-100 + 0.5 * sigma * sigma) / sigma ≤ 0 := by
    apply div_nonpos_of_nonpos_of_nonneg _ hs0.le
    nlinarith
  have hxsq : (9900 : ℝ) ≤ ((-100 + 0.5 * sigma * sigma) / sigma) ^ 2 := by
    rw [div_pow]
    rw [le_div_iff (by positivity)]
    nlinarith [sq_nonneg sigma, sq_nonneg (sigma * sigma), sq_nonneg (1 - sigma ^ 2)]
  have htail := Phi_tail_small hxneg hxsq
  nlinarith

/-- C1 counterexample: the round-trip claim, as stated for ALL valid market
parameters, is false on the code. At the deep out-of-the-money parameters
`spot = 1`, `strike = e^100`, `time = 1`, `rate = 0` and true
`sigma = 0.05` (inside the claimed range `[0.05, 1]`), the call price and
the residual at the initial guess `x1 = 0.3` are both far below
`ftol = 1e-6`, so the solver "succeeds" immediately by f-tolerance and
`implied_volatility` returns `0.3`, which is not within `1e-4` of `0.05`. -/
theorem implied_volatility_roundtrip_counterexample :
    ((0.05 : ℝ) ≤ 0.05 ∧ (0.05 : ℝ) ≤ 1) ∧ 0 < (1 : ℝ) ∧ 0 < Real.exp 100 ∧
    implied_volatility ((black_scholes 1 (Real.exp 100) 1 0 0.05).1)
      1 (Real.exp 100) 1 0 true = some 0.3 ∧
    ¬ |(0.3 : ℝ) - 0.05| ≤ 1e-4 := by
  have hek : (0 : ℝ) < Real.exp 100 := Real.exp_pos _
  have h03 := deep_otm_call_small (0.3 : ℝ) (by norm_num) (by norm_num)
  have h005 := deep_otm_call_small (0.05 : ℝ) (by norm_num) (by norm_num)
  have hsmall : (1 / 4000000 : ℝ) < 1e-6 := by norm_num
  have hres : |(black_scholes 1 (Real.exp 100) 1 0 (0.3 : ℝ)).1 -
      (black_scholes 1 (Real.exp 100) 1 0 0.05).1| < 1e-6 := by
    rw [abs_lt]
    constructor
    · linarith [h03.1, h005.2]
    · linarith [h03.2, h005.1]
  have hsec : secant (fun sigma => (black_scholes 1 (Real.exp 100) 1 0 sigma).1 -
      (black_scholes 1 (Real.exp 100) 1 0 0.05).1) 0.1 0.3 1e-6 1e-6 50 =
      .ok { root := 0.3, iterations := 0, convergence_type := .FTolerance } := by
    show secantAux _ _ _ (49 + 1) 0 0.1 0.3 = _
    exact secantAux_ftol _ _ _ _ _ _ _ hres
  refine ⟨⟨le_rfl, by norm_num⟩, one_pos, hek, ?_, ?_⟩
  · rw [(implied_volatility_unfold _ _ _ _ _).1, hsec]
  · rw [show (0.3 : ℝ) - 0.05 = 0.25 by norm_num, abs_of_nonneg (by norm_num)]
    norm_num

/-- C1 (amended): the round trip recovers the PRICE, not the volatility:
whenever the default secant call underlying `implied_volatility` succeeds
with f-tolerance convergence, the Black-Scholes price (call or put,
matching `is_call`) at the returned volatility reproduces the observed
price within `ftol = 1e-6`; recovery of the original sigma itself within
`1e-4` fails for some valid market parameters (see the counterexample). -/
theorem implied_volatility_ftol_price_accuracy :
    ∀ (p s k t r root : ℝ) (i : ℕ),
    (secant (fun sigma => (black_scholes s k t r sigma).1 - p)
        0.1 0.3 1e-6 1e-6 50 =
        .ok { root := root, iterations := i, convergence_type := .FTolerance } →
      |(black_scholes s k t r root).1 - p| < 1e-6) ∧
    (secant (fun sigma => (black_scholes s k t r sigma).2 - p)
        0.1 0.3 1e-6 1e-6 50 =
        .ok { root := root, iterations := i, convergence_type := .FTolerance } →
      |(black_scholes s k t r root).2 - p| < 1e-6) := by
  intro p s k t r root i
  constructor
  · intro h
    exact secantAux_ftol_residual _ _ _ 50 0 0.1 0.3 root i h
  · intro h
    exact secantAux_ftol_residual _ _ _ 50 0 0.1 0.3 root i h

/-- Witness for C1 (amended) at degenerate market parameters (`time = 0`),
where the residual is identically zero and the solver provably converges
by f-tolerance at once. -/
theorem implied_volatility_ftol_price_accuracy_witness :
    secant (fun sigma => (black_scholes 2 1 0 0 sigma).1 - 1)
        0.1 0.3 1e-6 1e-6 50 =
      .ok { root := 0.3, iterations := 0, convergence_type := .FTolerance } ∧
    |(black_scholes 2 1 0 0 (0.3 : ℝ)).1 - 1| < 1e-6 ∧
    secant (fun sigma => (black_scholes 2 1 0 0 sigma).2 - 0)
        0.1 0.3 1e-6 1e-6 50 =
      .ok { root := 0.3, iterations := 0, convergence_type := .FTolerance } ∧
    |(black_scholes 2 1 0 0 (0.3 : ℝ)).2 - 0| < 1e-6 := by
  have hcall : |(black_scholes 2 1 0 0 (0.3 : ℝ)).1 - 1| < 1e-6 := by
    rw [black_scholes_edge (Or.inl le_rfl)]
    norm_num
  have hput : |(black_scholes 2 1 0 0 (0.3 : ℝ)).2 - 0| < 1e-6 := by
    rw [black_scholes_edge (Or.inl le_rfl)]
    norm_num
  have h1 : secant (fun sigma => (black_scholes 2 1 0 0 sigma).1 - 1)
      0.1 0.3 1e-6 1e-6 50 =
      .ok { root := 0.3, iterations := 0, convergence_type := .FTolerance } := by
    show secantAux _ _ _ (49 + 1) 0 0.1 0.3 = _
    exact secantAux_ftol _ _ _ _ _ _ _ hcall
  have h2 : secant (fun sigma => (black_scholes 2 1 0 0 sigma).2 - 0)
      0.1 0.3 1e-6 1e-6 50 =
      .ok { root := 0.3, iterations := 0, convergence_type := .FTolerance } := by
    show secantAux _ _ _ (49 + 1) 0 0.1 0.3 = _
    exact secantAux_ftol _ _ _ _ _ _ _ hput
  exact ⟨h1, (implied_volatility_ftol_price_accuracy 1 2 1 0 0 0.3 0).1 h1,
    h2, (implied_volatility_ftol_price_accuracy 0 2 1 0 0 0.3 0).2 h2⟩
